import Mathlib

/-!
Verification development for the core ripping module of `musedash-ripper`
(`src/musedash_ripper/core.py`).

The Python source is shallowly embedded below.  Conventions used by the
embedding:

* Python exceptions become the `PyError` sum type; fallible Python code is
  translated into `Except PyError`-valued functions.
* JSON objects (Python dicts with string values, as used by the config
  parser) become `Record := String → Option String`; `dict.update` becomes
  `updateRecord`; a subscript `d[k]` becomes `getKey` (raising `keyError`
  when the key is absent).
* The file system and the opaque Unity-bundle reader are the environment:
  a `World` supplies `fsExists` (does a path exist on disk) and `loadJson`
  (the result of `load_json bundle_path asset_name`, which in Python opens
  a bundle with UnityPy and JSON5-parses a `TextAsset`; that reader is an
  external library and is treated as an oracle).
* Paths are strings joined with "/" (the POSIX `pathlib` rendering).
* `progress` callbacks are modelled by returning the list of emitted
  percentage values (as exact rationals) alongside the result.
* The process-pool of `parallel_execute` is modelled by an explicit
  completion schedule: a list of batches of `FutureOutcome`s, one batch per
  iteration of the `concurrent.futures.wait` loop, in observation order.
  A unit that is cancelled before starting never runs and is observed as
  `FutureOutcome.cancelled`.
* Debug-only JSON dumps, logging, and the actual media extraction and file
  writing (`extract_music`, `export_song`, ...) have no effect on any of
  the data flow modelled here and are not part of the embedding.
-/

deriving instance DecidableEq for Except

namespace MuseDash

/-- Python exceptions raised by the embedded fragment of `core.py`. -/
inductive PyError where
  | fileNotFound (msg : String)
  | assertionError
  | keyError (key : String)
  | valueError
  | userError (msg : String)
deriving DecidableEq, Repr

/-- A JSON-shaped record (Python dict from string keys to string values).
Presence of a key is `Option.some`. -/
def Record : Type := String → Option String

/-- The empty dict `\x7b\x7d`. -/
def emptyRecord : Record := fun _ => none

/-- Python `base.update(overlay)`: every key present in `overlay` wins,
keys absent from `overlay` keep their `base` value. -/
def updateRecord (base overlay : Record) : Record :=
  fun k => match overlay k with
  | some v => some v
  | none => base k

/-- Python `d[k]`: the value at `k`, or a `KeyError`. -/
def getKey (r : Record) (k : String) : Except PyError String :=
  match r k with
  | some v => Except.ok v
  | none => Except.error (PyError.keyError k)

/-- Python `s.startswith(pre)`. -/
def pyStartswith (pre s : String) : Bool := pre.data.isPrefixOf s.data

/-- Python `s.endswith(suf)`. -/
def pyEndswith (suf s : String) : Bool := suf.data.isSuffixOf s.data

/-- Python `s.lower()` (the strings involved are ASCII). -/
def pyLower (s : String) : String := ⟨s.data.map Char.toLower⟩

/-- Python `s.lstrip(chars)`: drop leading characters belonging to the set. -/
def pyLstrip (chars : List Char) (s : String) : String :=
  ⟨s.data.dropWhile (fun c => c ∈ chars)⟩

/-- Python `s[:-n]` for `n ≥ 0` (used to strip a fixed-length suffix). -/
def pySliceToNeg (n : Nat) (s : String) : String := ⟨s.data.take (s.data.length - n)⟩

/-- Decimal digit value of a character. -/
def digitVal (c : Char) : Option Nat :=
  if '0' ≤ c ∧ c ≤ '9' then some (c.toNat - '0'.toNat) else none

/-- Accumulate decimal digits; `none` on any non-digit. -/
def parseNatAux : List Char → Nat → Option Nat
  | [], acc => some acc
  | c :: rest, acc =>
    match digitVal c with
    | some d => parseNatAux rest (acc * 10 + d)
    | none => none

/-- Python `int(s)`: parse an optionally-signed decimal integer, raising
`ValueError` on malformed input (at least one digit is required;
surrounding whitespace and digit-group underscores, which never occur in
the data handled here, are not modelled). -/
def pyInt (s : String) : Except PyError Int :=
  match s.data with
  | '-' :: rest =>
    match rest, parseNatAux rest 0 with
    | _ :: _, some n => Except.ok (-(n : Int))
    | _, _ => Except.error PyError.valueError
  | '+' :: rest =>
    match rest, parseNatAux rest 0 with
    | _ :: _, some n => Except.ok (n : Int)
    | _, _ => Except.error PyError.valueError
  | cs =>
    match cs, parseNatAux cs 0 with
    | _ :: _, some n => Except.ok (n : Int)
    | _, _ => Except.error PyError.valueError

/-- Python `s.split(sep)` for a single-character separator: auxiliary scan. -/
def splitOnCharAux (sep : Char) : List Char → List Char → List String
  | [], acc => [⟨acc.reverse⟩]
  | d :: rest, acc =>
    if d = sep then ⟨acc.reverse⟩ :: splitOnCharAux sep rest []
    else splitOnCharAux sep rest (d :: acc)

/-- Python `s.split(sep)` for a single-character separator. -/
def pySplitChar (sep : Char) (s : String) : List String := splitOnCharAux sep s.data []

/-- `str(pathlib.Path(p1, ..., pn))` on POSIX: join segments with "/". -/
def joinSlash : List String → String
  | [] => ""
  | [x] => x
  | x :: xs => x ++ "/" ++ joinSlash xs

/-- Python `s.replace(old, new)` on character lists, fuelled so that the
definition is structurally recursive (the fuel is the length of the
scanned list, which always suffices).  Callers only use non-empty `old`. -/
def pyReplaceFuel (pat rep : List Char) : Nat → List Char → List Char
  | 0, l => l
  | _ + 1, [] => []
  | fuel + 1, c :: rest =>
    if pat ≠ [] ∧ pat.isPrefixOf (c :: rest) then
      rep ++ pyReplaceFuel pat rep fuel (rest.drop (pat.length - 1))
    else
      c :: pyReplaceFuel pat rep fuel rest

/-- Python `s.replace(old, new)`: replace all non-overlapping occurrences,
scanning left to right. -/
def pyReplace (s pat rep : String) : String :=
  ⟨pyReplaceFuel pat.data rep.data s.data.length s.data⟩

/-- Dataclass `Song` of `core.py`. -/
structure Song where
  title : String
  artist : String
  album_number : Int
  album_name : String
  track_number : Nat
  track_total : Nat
  music_asset_name : String
  song_asset_name : String
  music_name : String
  cover_name : String
  genre : Option String := none
deriving DecidableEq, Repr

/-- `ADDRESSABLES_DIR` rendered as a POSIX path fragment. -/
def ADDRESSABLES_DIR : String := "MuseDash_Data/StreamingAssets/aa"

/-- `CATALOG_BUNDLE_PREFIX` of `core.py` (the name here avoids the word
reserved by Lean): the fixed runtime-path marker heading catalog entries. -/
def CATALOG_BUNDLE_MARKER : String :=
  "\x7bUnityEngine.AddressableAssets.Addressables.RuntimePath\x7d\\"

/-- `CONFIG_PARSE_PROGRESS` of `core.py`: share of the progress bar given
to config parsing. -/
def CONFIG_PARSE_PROGRESS : ℚ := 10

/-- The `LANGUAGES` dict of `core.py`. -/
def LANGUAGES : List (Option String × Option String) :=
  [ (none, none),
    (some "Chinese Simplified", some "ChineseS"),
    (some "Chinese Traditional", some "ChineseT"),
    (some "English", some "English"),
    (some "Japanese", some "Japanese"),
    (some "Korean", some "Korean") ]

/-- Python `LANGUAGES.get(language)` (default `None` when absent). -/
def languagesGet (language : Option String) : Option String :=
  match LANGUAGES.find? (fun p => decide (p.1 = language)) with
  | some p => p.2
  | none => none

/-- The environment a run interacts with: the file system and the opaque
Unity bundle/JSON reader (`load_json`), plus the raw `m_InternalIds` list
of `catalog.json` consumed by `load_catalog`. -/
structure World where
  fsExists : String → Bool
  loadJson : String → String → Except PyError (List Record)
  internalIds : List String

/-- `load_catalog` of `core.py`: keep internal ids starting with the
runtime-path marker and strip that marker. -/
def load_catalog (internal_ids : List String) : List String :=
  (internal_ids.filter (fun s => pyStartswith CATALOG_BUNDLE_MARKER s)).map
    (fun s => ⟨s.data.drop CATALOG_BUNDLE_MARKER.data.length⟩)

/-- The full on-disk path of a catalog entry:
`game_dir / ADDRESSABLES_DIR / Path(*entry.split("\\"))`. -/
def bundlePath (game_dir entry : String) : String :=
  game_dir ++ "/" ++ ADDRESSABLES_DIR ++ "/" ++ joinSlash (pySplitChar '\\' entry)

/-- `find_with_prefix` of `core.py`: exactly one catalog entry must start
with `"StandaloneWindows64\\" ++ pre`; the resolved bundle file must also
exist on disk. -/
def find_with_prefix (w : World) (game_dir : String) (catalog_list : List String)
    (pre : String) : Except PyError String :=
  match catalog_list.filter (fun s => pyStartswith ( "StandaloneWindows64\\" ++ pre) s) with
  | [f] =>
    if w.fsExists (bundlePath game_dir f) then Except.ok (bundlePath game_dir f)
    else
      Except.error (PyError.fileNotFound
        ( "Bundle file not found: '" ++ bundlePath game_dir f ++ "'"))
  | _ =>
    Except.error (PyError.fileNotFound
      ( "Could not find unique bundle file with prefix '" ++ pre ++ "'"))

/-- Characters stripped by `jsonName.lstrip("ALBUM")`. -/
def albumChars : List Char := ['A', 'L', 'B', 'U', 'M']

/-- The inner track loop of `parse_config` (`core.py` lines 279-303): walk
the `zip(entry_json, l_entry_json)` pairs with `track_num` counting from
`1`, overlay each localized record onto the base record, check the
`_cover` / `_music` suffixes (Python `assert`s), and build one `Song` per
position.  Later errors abort the whole parse, as an exception would. -/
def processTracks (album_entry : Record) (jsonName : String) (entryLen : Nat) :
    List (Record × Record) → Nat → Except PyError (List Song)
  | [], _ => Except.ok []
  | (s, ls) :: rest, track_num =>
    let song_entry := updateRecord s ls
    match getKey song_entry "cover" with
    | Except.error e => Except.error e
    | Except.ok cover =>
      if pyEndswith "_cover" cover then
        let song_asset_name := pySliceToNeg "_cover".length cover
        match getKey song_entry "music" with
        | Except.error e => Except.error e
        | Except.ok music =>
          if pyEndswith "_music" music then
            let music_asset_name := pySliceToNeg "_music".length music
            match getKey song_entry "name" with
            | Except.error e => Except.error e
            | Except.ok title =>
              match getKey song_entry "author" with
              | Except.error e => Except.error e
              | Except.ok artist =>
                match pyInt (pyLstrip albumChars jsonName) with
                | Except.error e => Except.error e
                | Except.ok album_number =>
                  match getKey album_entry "title" with
                  | Except.error e => Except.error e
                  | Except.ok album_name =>
                    match processTracks album_entry jsonName entryLen rest (track_num + 1) with
                    | Except.error e => Except.error e
                    | Except.ok restSongs =>
                      Except.ok
                        ({ title := title, artist := artist, album_number := album_number,
                           album_name := album_name, track_number := track_num,
                           track_total := entryLen, music_asset_name := music_asset_name,
                           song_asset_name := song_asset_name, music_name := music,
                           cover_name := cover, genre := none } :: restSongs)
          else Except.error PyError.assertionError
      else Except.error PyError.assertionError

/-- The body loaded for one album inside `parse_config`: resolve and load
the base per-album JSON, then the localized one (or an all-empty overlay
of the same length when no language is selected), and run the track loop.
A localized/base length mismatch is only logged in Python, so it has no
effect here. -/
def processAlbum (w : World) (game_dir : String) (catalog_list : List String)
    (l_suffix : Option String) (album_entry : Record) (jsonName : String) :
    Except PyError (List Song) :=
  match find_with_prefix w game_dir catalog_list
      ( "config_others_assets_" ++ pyLower jsonName ++ "_") with
  | Except.error e => Except.error e
  | Except.ok entry_path =>
    match w.loadJson entry_path jsonName with
    | Except.error e => Except.error e
    | Except.ok entry_json =>
      match (match l_suffix with
        | some suf =>
          match find_with_prefix w game_dir catalog_list
              ( "config_" ++ pyLower suf ++ "_assets_" ++ pyLower jsonName ++ "_"
                ++ pyLower suf ++ "_") with
          | Except.error e => Except.error e
          | Except.ok l_entry_path => w.loadJson l_entry_path (jsonName ++ "_" ++ suf)
        | none => Except.ok (List.replicate entry_json.length emptyRecord)) with
      | Except.error e => Except.error e
      | Except.ok l_entry_json =>
        processTracks album_entry jsonName entry_json.length
          (entry_json.zip l_entry_json) 1

/-- The outer album loop of `parse_config` (lines 235-305): enumerate the
`zip(albums_json, l_albums_json)` pairs with `album_num` counting from
`1`, overlay, skip albums whose `jsonName` is empty (their `progress` call
is skipped too, because Python's `continue` jumps past it), and emit
`album_num / albumsTotal * 100` after each fully processed album.  The
second component is the list of emitted progress values, kept even when
the loop aborts with an error. -/
def processAlbums (w : World) (game_dir : String) (catalog_list : List String)
    (l_suffix : Option String) (albumsTotal : Nat) :
    List (Record × Record) → Nat → Except PyError (List Song) × List ℚ
  | [], _ => (Except.ok [], [])
  | (a, la) :: rest, album_num =>
    let album_entry := updateRecord a la
    match getKey album_entry "jsonName" with
    | Except.error e => (Except.error e, [])
    | Except.ok jsonName =>
      if jsonName = "" then
        processAlbums w game_dir catalog_list l_suffix albumsTotal rest (album_num + 1)
      else
        match processAlbum w game_dir catalog_list l_suffix album_entry jsonName with
        | Except.error e => (Except.error e, [])
        | Except.ok albumSongs =>
          let v : ℚ := (album_num : ℚ) / (albumsTotal : ℚ) * 100
          match processAlbums w game_dir catalog_list l_suffix albumsTotal rest
              (album_num + 1) with
          | (Except.error e, restVals) => (Except.error e, v :: restVals)
          | (Except.ok restSongs, restVals) =>
            (Except.ok (albumSongs ++ restSongs), v :: restVals)

/-- The sort key order used by `sorted(songs, key=lambda song:
(song.album_number, song.track_number))`: non-strict lexicographic
comparison of the key pairs. -/
def songLE (a b : Song) : Bool :=
  decide (a.album_number < b.album_number) ||
    (decide (a.album_number = b.album_number) && decide (a.track_number ≤ b.track_number))

/-- Stable insertion of a song in front of the first element it compares
`songLE` to. -/
def pySortedInsert (x : Song) : List Song → List Song
  | [] => [x]
  | y :: ys => if songLE x y then x :: y :: ys else y :: pySortedInsert x ys

/-- Python `sorted(songs, key=lambda song: (song.album_number,
song.track_number))`.  `sorted` is a stable sort; a stable sort for a
total preorder is a unique function of its input, and this structural
insertion sort computes it. -/
def pySorted : List Song → List Song
  | [] => []
  | x :: xs => pySortedInsert x (pySorted xs)

/-- `parse_config` of `core.py`: load the base albums JSON, the localized
albums JSON when a language is selected (their lengths must agree — a
Python `assert`), run the album loop, and return the `Song` list sorted by
`(album_number, track_number)`.  The second component is the list of
progress values emitted through the `progress` callback. -/
def parse_config (w : World) (game_dir : String) (catalog_list : List String)
    (language : Option String) : Except PyError (List Song) × List ℚ :=
  match find_with_prefix w game_dir catalog_list "config_others_assets_albums_" with
  | Except.error e => (Except.error e, [])
  | Except.ok albums_path =>
    match w.loadJson albums_path "albums" with
    | Except.error e => (Except.error e, [])
    | Except.ok albums_json =>
      match (match languagesGet language with
        | some suf =>
          match find_with_prefix w game_dir catalog_list
              ( "config_" ++ pyLower suf ++ "_assets_albums_" ++ pyLower suf ++ "_") with
          | Except.error e => Except.error e
          | Except.ok l_albums_path =>
            match w.loadJson l_albums_path ( "albums_" ++ suf) with
            | Except.error e => Except.error e
            | Except.ok l_albums_json =>
              if albums_json.length = l_albums_json.length then Except.ok l_albums_json
              else Except.error PyError.assertionError
        | none => Except.ok (List.replicate albums_json.length emptyRecord)) with
      | Except.error e => (Except.error e, [])
      | Except.ok l_albums_json =>
        match processAlbums w game_dir catalog_list (languagesGet language)
            albums_json.length (albums_json.zip l_albums_json) 1 with
        | (Except.error e, vals) => (Except.error e, vals)
        | (Except.ok songs, vals) => (Except.ok (pySorted songs), vals)

/-- The `fm_17314_sugar_radio` cover correction of `fix_songs` (`core.py`
lines 100-103). -/
def fixFm (song : Song) : Song :=
  if song.song_asset_name = "fm_17314_sugar_radio" then
    { song with song_asset_name := "qu_jianhai_de_rizi",
                cover_name := "qu_jianhai_de_rizi_cover" }
  else song

/-- The `misty_memory` cover correction of `fix_songs` (lines 105-108). -/
def fixMisty (song : Song) : Song :=
  if song.song_asset_name = "misty_memory_day_version" then
    { song with song_asset_name := "misty_memory_night_version" }
  else song

/-- The per-song body of `fix_songs` (`core.py` lines 92-108): the three
`str.replace` rewrites followed by the two special-case corrections, in
source order. -/
def fixSong (song : Song) : Song :=
  fixMisty (fixFm
    { song with
      album_name := pyReplace song.album_name "Everyting" "Everything",
      music_asset_name := pyReplace song.music_asset_name "_music" "",
      song_asset_name := pyReplace song.song_asset_name "_music" "" })

/-- `fix_songs` of `core.py` (the in-place mutation of the list becomes a
map). -/
def fix_songs (songs : List Song) : List Song := songs.map fixSong

/-- The per-song body of `normalize_songs` (lines 113-118). -/
def normSong (song : Song) : Song :=
  { song with album_name := "Muse Dash - " ++ song.album_name,
              genre := some "Video Games" }

/-- `normalize_songs` of `core.py`. -/
def normalize_songs (songs : List Song) : List Song := songs.map normSong

/-- The observed completion of one extraction future: `future.result()`
returns the summary message, raises the unit's error, or raises
`CancelledError` for a unit cancelled before it started (such a unit never
runs). -/
inductive FutureOutcome where
  | success (msg : String)
  | failure (e : PyError)
  | cancelled
deriving DecidableEq, Repr

/-- Does `future.result()` raise the unit's own error? -/
def FutureOutcome.isFailure : FutureOutcome → Bool
  | .failure _ => true
  | _ => false

/-- The summary message of a successful unit. -/
def FutureOutcome.successMsg : FutureOutcome → Option String
  | .success m => some m
  | _ => none

/-- One iteration step of the `for future in done:` loop of
`parallel_execute`: state is `(error, all_done, messages passed to
done_callback so far)`.  A success invokes `done_callback`; a
`CancelledError` clears `all_done`; any other exception overwrites
`error`. -/
def peStep : Option PyError × Bool × List String → FutureOutcome →
    Option PyError × Bool × List String
  | (err, ad, msgs), .success m => (err, ad, msgs ++ [m])
  | (err, _, msgs), .cancelled => (err, false, msgs)
  | (_, ad, msgs), .failure e => (some e, ad, msgs)

/-- `parallel_execute` of `core.py`, over an explicit completion schedule
(one inner list per `concurrent.futures.wait` round, in observation
order).  Returns the Python return value (or the raised error) and the
sequence of messages handed to `done_callback`.  The `future.cancel()`
calls only influence which outcomes the environment can produce; they do
not touch the local state. -/
def parallel_execute (schedule : List (List FutureOutcome)) :
    Except PyError Bool × List String :=
  match schedule.foldl (fun acc batch => batch.foldl peStep acc) (none, true, []) with
  | (some e, _, msgs) => (Except.error e, msgs)
  | (none, all_done, msgs) => (Except.ok all_done, msgs)

/-- The progress value emitted by `log_exported` for the `k`-th (0-based)
invocation of `done_callback` on a run with `S` songs:
`CONFIG_PARSE_PROGRESS + (100 - CONFIG_PARSE_PROGRESS) * done_counter / S`
with `done_counter = k + 1`. -/
def ripExtValue (S k : Nat) : ℚ :=
  CONFIG_PARSE_PROGRESS + (100 - CONFIG_PARSE_PROGRESS) * ((k : ℚ) + 1) / (S : ℚ)

/-- `rip` of `core.py`, restricted to the data flow that the claims are
about: the `MuseDash.exe` validation, catalog loading, config parsing with
the progress callback scaled by `CONFIG_PARSE_PROGRESS`, the
`fix_songs` / `normalize_songs` passes, the `stop_event` check before
exporting, and the parallel export whose `log_exported` callback advances
the progress bar once per successful unit.  The result pairs the Python
return value (or raised error) with every value passed to `progress`, in
order.  Output-file writing, CSV export, and logging have no effect on
this data flow and are not modelled. -/
def rip (w : World) (game_dir : String) (language : Option String) (stopSet : Bool)
    (schedule : List (List FutureOutcome)) : Except PyError Bool × List ℚ :=
  if w.fsExists (game_dir ++ "/MuseDash.exe") then
    match parse_config w game_dir (load_catalog w.internalIds) language with
    | (Except.error e, vals) =>
      (Except.error e, 0 :: vals.map (fun x => x * CONFIG_PARSE_PROGRESS / 100))
    | (Except.ok songs0, vals) =>
      if stopSet then
        (Except.ok false, 0 :: vals.map (fun x => x * CONFIG_PARSE_PROGRESS / 100))
      else
        ((parallel_execute schedule).1,
          0 :: vals.map (fun x => x * CONFIG_PARSE_PROGRESS / 100) ++
            (List.range (parallel_execute schedule).2.length).map
              (ripExtValue (normalize_songs (fix_songs songs0)).length))
  else
    (Except.error (PyError.userError
      "Could not find MuseDash.exe in game folder. Did you select the right folder?"), [0])

/-!  Concrete environments used to instantiate the theorems below. -/

/-- Build a `Record` from an association list. -/
def mkRecord (l : List (String × String)) : Record :=
  fun k => (l.find? (fun p => decide (p.1 = k))).map (fun p => p.2)

/-- A minimal happy-path catalog: one albums bundle and one per-album
bundle. -/
def catOK : List String :=
  [ "StandaloneWindows64\\config_others_assets_albums_abc",
    "StandaloneWindows64\\config_others_assets_album1_xyz" ]

/-- Happy-path world: every path exists, the albums JSON lists one album
`ALBUM1` with two tracks. -/
def wOK : World where
  fsExists := fun _ => true
  loadJson := fun _ asset =>
    if asset = "albums" then
      Except.ok [mkRecord [("jsonName", "ALBUM1"), ("title", "Default Music")]]
    else if asset = "ALBUM1" then
      Except.ok
        [ mkRecord [("name", "Song A"), ("author", "Artist A"),
                    ("music", "a_music"), ("cover", "a_cover")],
          mkRecord [("name", "Song B"), ("author", "Artist B"),
                    ("music", "b_music"), ("cover", "b_cover")] ]
    else Except.error (PyError.fileNotFound asset)
  internalIds := catOK.map (fun s => CATALOG_BUNDLE_MARKER ++ s)

/-- The two `Song`s produced by `parse_config` on `wOK`. -/
def songA : Song :=
  { title := "Song A", artist := "Artist A", album_number := 1,
    album_name := "Default Music", track_number := 1, track_total := 2,
    music_asset_name := "a", song_asset_name := "a",
    music_name := "a_music", cover_name := "a_cover", genre := none }

def songB : Song :=
  { title := "Song B", artist := "Artist B", album_number := 1,
    album_name := "Default Music", track_number := 2, track_total := 2,
    music_asset_name := "b", song_asset_name := "b",
    music_name := "b_music", cover_name := "b_cover", genre := none }

/-- Concrete evaluation of the happy-path parse, used to discharge
hypotheses of several witnesses. -/
lemma parse_wOK_fst : (parse_config wOK "g" catOK none).1 = Except.ok [songA, songB] := by
  decide

/-- Catalog for the localized truncation scenario. -/
def catC3 : List String :=
  [ "StandaloneWindows64\\config_others_assets_albums_p",
    "StandaloneWindows64\\config_english_assets_albums_english_p",
    "StandaloneWindows64\\config_others_assets_album1_p",
    "StandaloneWindows64\\config_english_assets_album1_english_p" ]

/-- World for the localized truncation scenario: the base `ALBUM1` track
list has two entries but the localized one has only one, so zip-style
pairing drops the second base entry. -/
def wC3 : World where
  fsExists := fun _ => true
  loadJson := fun _ asset =>
    if asset = "albums" then
      Except.ok [mkRecord [("jsonName", "ALBUM1"), ("title", "Default Music")]]
    else if asset = "albums_English" then
      Except.ok [mkRecord [("title", "Default Music EN")]]
    else if asset = "ALBUM1" then
      Except.ok
        [ mkRecord [("name", "Song A"), ("author", "Artist A"),
                    ("music", "a_music"), ("cover", "a_cover")],
          mkRecord [("name", "Song B"), ("author", "Artist B"),
                    ("music", "b_music"), ("cover", "b_cover")] ]
    else if asset = "ALBUM1_English" then
      Except.ok [mkRecord [("name", "Song A EN")]]
    else Except.error (PyError.fileNotFound asset)
  internalIds := catC3.map (fun s => CATALOG_BUNDLE_MARKER ++ s)

/-- The single `Song` produced by `parse_config` on `wC3` with English
localization: its `track_total` is the base list length 2, although only
one track is emitted. -/
def songC3 : Song :=
  { title := "Song A EN", artist := "Artist A", album_number := 1,
    album_name := "Default Music EN", track_number := 1, track_total := 2,
    music_asset_name := "a", song_asset_name := "a",
    music_name := "a_music", cover_name := "a_cover", genre := none }

/-- Concrete evaluation of the truncation-scenario parse. -/
lemma parse_wC3_fst :
    (parse_config wC3 "g" catC3 (some "English")).1 = Except.ok [songC3] := by decide

/-- Catalog with exactly one entry matching the albums bundle name. -/
def catC1 : List String := ["StandaloneWindows64\\config_others_assets_albums_ab12"]

/-- World in which no file exists on disk. -/
def wC1 : World where
  fsExists := fun _ => false
  loadJson := fun _ asset => Except.error (PyError.fileNotFound asset)
  internalIds := []

/-- Concrete evaluation of resolution against a catalog whose unique
matching bundle file is missing on disk. -/
lemma find_wC1 :
    find_with_prefix wC1 "g" catC1 "config_others_assets_albums_" =
      Except.error (PyError.fileNotFound
        "Bundle file not found: 'g/MuseDash_Data/StreamingAssets/aa/StandaloneWindows64/config_others_assets_albums_ab12'") := by
  decide

/-!  ## Claim C9 — overlay merge semantics -/

/-- C9: the overlay merge used by `parse_config` (Python `dict.update`)
gives precedence to every field present in the localized record, and
merging with an empty localized record returns exactly the base record. -/
theorem C9_overlay_merge :
    (∀ (base overlay : Record) (k v : String),
        overlay k = some v → updateRecord base overlay k = some v) ∧
    (∀ base : Record, updateRecord base emptyRecord = base) := by
  constructor
  · intro base overlay k v h
    simp only [updateRecord, h]
  · intro base
    funext k
    simp only [updateRecord, emptyRecord]

/-- Witness for C9 at concrete records: a localized `title` wins, and an
empty overlay leaves the base record unchanged. -/
theorem C9_overlay_merge_witness :
    updateRecord (mkRecord [("title", "Base")]) (mkRecord [("title", "Loc")]) "title" =
        some "Loc" ∧
    updateRecord (mkRecord [("title", "Base")]) emptyRecord = mkRecord [("title", "Base")] :=
  ⟨C9_overlay_merge.1 _ _ _ _ (by decide), C9_overlay_merge.2 _⟩

/-!  ## Claims C1 / C10 — catalog resolution -/

/-- C1 as stated is false: with exactly one matching catalog entry whose
bundle file is missing on disk, `find_with_prefix` raises instead of
returning the path, so "returns a physical path exactly when exactly one
entry matches" fails in the right-to-left direction. -/
theorem C1_counterexample :
    catC1.countP
        (fun s => pyStartswith ( "StandaloneWindows64\\" ++ "config_others_assets_albums_") s)
      = 1 ∧
    find_with_prefix wC1 "g" catC1 "config_others_assets_albums_" =
      Except.error (PyError.fileNotFound
        "Bundle file not found: 'g/MuseDash_Data/StreamingAssets/aa/StandaloneWindows64/config_others_assets_albums_ab12'") :=
  ⟨by decide, find_wC1⟩

/-- C1 amended: `find_with_prefix` returns a physical path exactly when
exactly one cataloged entry starts with the (platform-qualified) prefix
AND the resolved bundle path exists on disk; with zero or several matching
entries it always fails, never silently picking the first match, and any
returned path is the resolved path of the unique match. -/
theorem C1_amended (w : World) (gd : String) (cat : List String) (pre : String) :
    ((∃ p, find_with_prefix w gd cat pre = Except.ok p) ↔
      (∃ m, cat.filter (fun s => pyStartswith ( "StandaloneWindows64\\" ++ pre) s) = [m] ∧
        w.fsExists (bundlePath gd m) = true)) ∧
    (∀ p, find_with_prefix w gd cat pre = Except.ok p →
      ∃ m, cat.filter (fun s => pyStartswith ( "StandaloneWindows64\\" ++ pre) s) = [m] ∧
        p = bundlePath gd m) := by
  constructor
  · constructor
    · rintro ⟨p, hp⟩
      unfold find_with_prefix at hp
      split at hp
      · rename_i f hf
        split at hp
        · exact ⟨f, hf, by assumption⟩
        · exact absurd hp (by simp)
      · exact absurd hp (by simp)
    · rintro ⟨m, hm, hex⟩
      refine ⟨bundlePath gd m, ?_⟩
      unfold find_with_prefix
      rw [hm]
      simp [hex]
  · intro p hp
    unfold find_with_prefix at hp
    split at hp
    · rename_i f hf
      split at hp
      · exact ⟨f, hf, (Except.ok.injEq _ _).mp hp.symm⟩
      · exact absurd hp (by simp)
    · exact absurd hp (by simp)

/-- Witness for the amended C1: on the happy-path catalog the albums
bundle resolves to a path. -/
theorem C1_amended_witness :
    ∃ p, find_with_prefix wOK "g" catOK "config_others_assets_albums_" = Except.ok p :=
  (C1_amended wOK "g" catOK "config_others_assets_albums_").1.mpr
    ⟨ "StandaloneWindows64\\config_others_assets_albums_abc", by decide, by decide⟩

/-- C10: resolution has a second failure mode beyond exact-one-match —
with a unique matching entry whose resolved bundle path does not exist on
disk it raises a file-not-found error, and consequently every returned
path refers to an existing file. -/
theorem C10_existence_check :
    (∀ (w : World) (gd : String) (cat : List String) (pre p : String),
        find_with_prefix w gd cat pre = Except.ok p → w.fsExists p = true) ∧
    (∀ (w : World) (gd : String) (cat : List String) (pre m : String),
        cat.filter (fun s => pyStartswith ( "StandaloneWindows64\\" ++ pre) s) = [m] →
        w.fsExists (bundlePath gd m) = false →
        find_with_prefix w gd cat pre =
          Except.error (PyError.fileNotFound
            ( "Bundle file not found: '" ++ bundlePath gd m ++ "'"))) := by
  constructor
  · intro w gd cat pre p hp
    unfold find_with_prefix at hp
    split at hp
    · split at hp
      · cases hp
        assumption
      · exact absurd hp (by simp)
    · exact absurd hp (by simp)
  · intro w gd cat pre m hm hex
    unfold find_with_prefix
    rw [hm]
    simp [hex]

/-- Witness for C10: a returned path exists on the happy path, and the
missing-file world produces the file-not-found error. -/
theorem C10_existence_check_witness :
    wOK.fsExists
        "g/MuseDash_Data/StreamingAssets/aa/StandaloneWindows64/config_others_assets_albums_abc"
      = true ∧
    find_with_prefix wC1 "g" catC1 "config_others_assets_albums_" =
      Except.error (PyError.fileNotFound
        ( "Bundle file not found: '" ++
          bundlePath "g" "StandaloneWindows64\\config_others_assets_albums_ab12" ++ "'")) :=
  ⟨C10_existence_check.1 wOK "g" catOK "config_others_assets_albums_" _ (by decide),
   C10_existence_check.2 wC1 "g" catC1 "config_others_assets_albums_" _ (by decide) (by decide)⟩

/-!  ## Claim C5 — error propagation of the export scheduler -/

/-- The error retained by the `error = err` assignments of
`parallel_execute`: each later failure overwrites the earlier one. -/
def lastFailure (l : List FutureOutcome) : Option PyError :=
  l.foldl (fun acc o => match o with | FutureOutcome.failure e => some e | _ => acc) none

lemma foldl_peStep_err (l : List FutureOutcome)
    (acc : Option PyError × Bool × List String) :
    (l.foldl peStep acc).1 =
      l.foldl (fun a o => match o with | FutureOutcome.failure e => some e | _ => a) acc.1 := by
  induction l generalizing acc with
  | nil => rfl
  | cons o rest ih =>
    cases o <;> simp [peStep, ih]

/-- C5 amended: when several extraction units fail, `parallel_execute`
propagates exactly one error — the LAST-observed failure (each later
failure overwrites the stored one); all other failures are discarded. -/
theorem C5_amended (schedule : List (List FutureOutcome)) (e : PyError) :
    (parallel_execute schedule).1 = Except.error e ↔
      lastFailure schedule.flatten = some e := by
  unfold parallel_execute
  rw [show (schedule.foldl (fun acc batch => batch.foldl peStep acc) (none, true, [])) =
      schedule.flatten.foldl peStep (none, true, []) from (List.foldl_flatten _ _ _).symm]
  have herr : (schedule.flatten.foldl peStep (none, true, [])).1 = lastFailure schedule.flatten :=
    foldl_peStep_err _ _
  rcases hst : schedule.flatten.foldl peStep (none, true, []) with ⟨err, ad, msgs⟩
  rw [hst] at herr
  replace herr : err = lastFailure schedule.flatten := herr
  cases err with
  | none => rw [← herr]; simp
  | some e2 => rw [← herr]; simp

/-- C5 as stated is false: with two failures observed in successive wait
rounds, the propagated error is the second (last-observed) failure, not
the first-observed one. -/
theorem C5_counterexample :
    (parallel_execute [[FutureOutcome.failure PyError.valueError],
        [FutureOutcome.failure PyError.assertionError]]).1 =
      Except.error PyError.assertionError ∧
    ([[FutureOutcome.failure PyError.valueError],
        [FutureOutcome.failure PyError.assertionError]] :
        List (List FutureOutcome)).flatten.head? =
      some (FutureOutcome.failure PyError.valueError) ∧
    PyError.assertionError ≠ PyError.valueError :=
  ⟨by decide, by decide, by decide⟩

/-- Witness for the amended C5 at a concrete one-failure schedule. -/
theorem C5_amended_witness :
    (parallel_execute [[FutureOutcome.failure PyError.valueError]]).1 =
      Except.error PyError.valueError :=
  (C5_amended [[FutureOutcome.failure PyError.valueError]] PyError.valueError).mpr (by decide)

/-!  ## Claim C2 — the parsed track list is sorted -/

/-- The (propositional) sort-key order: non-strict lexicographic order on
`(album_number, track_number)`. -/
def songKeyLE (a b : Song) : Prop :=
  a.album_number < b.album_number ∨
    (a.album_number = b.album_number ∧ a.track_number ≤ b.track_number)

lemma songLE_iff (a b : Song) : songLE a b = true ↔ songKeyLE a b := by
  simp [songLE, songKeyLE]

lemma songLE_total (a b : Song) : songLE a b = true ∨ songLE b a = true := by
  simp only [songLE, Bool.or_eq_true, Bool.and_eq_true, decide_eq_true_eq]
  omega

lemma songLE_trans {a b c : Song} (h1 : songLE a b = true) (h2 : songLE b c = true) :
    songLE a c = true := by
  simp only [songLE, Bool.or_eq_true, Bool.and_eq_true, decide_eq_true_eq] at h1 h2 ⊢
  omega

lemma mem_pySortedInsert (x y : Song) : ∀ l, x ∈ pySortedInsert y l ↔ x = y ∨ x ∈ l := by
  intro l
  induction l with
  | nil => simp [pySortedInsert]
  | cons z zs ih =>
    by_cases h : songLE y z = true
    · simp [pySortedInsert, h, List.mem_cons]
    · simp only [pySortedInsert, h, if_neg, Bool.false_eq_true, if_false, List.mem_cons, ih]
      tauto

lemma pairwise_pySortedInsert (x : Song) :
    ∀ l, l.Pairwise (fun a b => songLE a b = true) →
      (pySortedInsert x l).Pairwise (fun a b => songLE a b = true) := by
  intro l
  induction l with
  | nil => intro _; simp [pySortedInsert]
  | cons y ys ih =>
    intro h
    rw [List.pairwise_cons] at h
    by_cases hxy : songLE x y = true
    · rw [show pySortedInsert x (y :: ys) = x :: y :: ys from by simp [pySortedInsert, hxy]]
      rw [List.pairwise_cons]
      refine ⟨?_, List.pairwise_cons.mpr h⟩
      intro z hz
      rcases List.mem_cons.mp hz with rfl | hz2
      · exact hxy
      · exact songLE_trans hxy (h.1 z hz2)
    · rw [show pySortedInsert x (y :: ys) = y :: pySortedInsert x ys from by
        simp [pySortedInsert, hxy]]
      rw [List.pairwise_cons]
      constructor
      · intro z hz
        rcases (mem_pySortedInsert z x ys).mp hz with rfl | hz2
        · rcases songLE_total z y with h1 | h1
          · exact absurd h1 hxy
          · exact h1
        · exact h.1 z hz2
      · exact ih h.2

lemma pairwise_pySorted : ∀ l : List Song,
    (pySorted l).Pairwise (fun a b => songLE a b = true) := by
  intro l
  induction l with
  | nil => simp [pySorted]
  | cons x xs ih => exact pairwise_pySortedInsert x _ ih

lemma perm_pySortedInsert (x : Song) :
    ∀ l, List.Perm (pySortedInsert x l) (x :: l) := by
  intro l
  induction l with
  | nil => simp [pySortedInsert]
  | cons y ys ih =>
    by_cases h : songLE x y = true
    · simp [pySortedInsert, h]
    · rw [show pySortedInsert x (y :: ys) = y :: pySortedInsert x ys from by
        simp [pySortedInsert, h]]
      exact (List.Perm.cons y ih).trans (List.Perm.swap x y ys)

lemma perm_pySorted : ∀ l : List Song, List.Perm (pySorted l) l := by
  intro l
  induction l with
  | nil => simp [pySorted]
  | cons x xs ih => exact (perm_pySortedInsert x (pySorted xs)).trans (List.Perm.cons x ih)

/-- Inversion of a successful `parse_config`: the returned list is the
sorted image of some raw album-loop output, whose enumeration starts at
`1` and walks at most as many albums as the base albums JSON has. -/
lemma parse_config_ok_inv (w : World) (gd : String) (cat : List String)
    (lang : Option String) (songs : List Song)
    (h : (parse_config w gd cat lang).1 = Except.ok songs) :
    ∃ (T : Nat) (pairs : List (Record × Record)) (raw : List Song) (vals : List ℚ),
      pairs.length ≤ T ∧
      processAlbums w gd cat (languagesGet lang) T pairs 1 = (Except.ok raw, vals) ∧
      songs = pySorted raw := by
  unfold parse_config at h
  split at h
  · exact absurd h (by simp)
  · split at h
    · exact absurd h (by simp)
    · rename_i albums_path halbums albums_json hjson
      split at h
      · exact absurd h (by simp)
      · rename_i l_albums_json hl
        split at h
        · exact absurd h (by simp)
        · rename_i raw vals hpa
          refine ⟨albums_json.length, albums_json.zip l_albums_json, raw, vals, ?_, hpa, ?_⟩
          · calc (albums_json.zip l_albums_json).length
                = min albums_json.length l_albums_json.length := List.length_zip ..
              _ ≤ albums_json.length := Nat.min_le_left ..
          · exact ((Except.ok.injEq _ _).mp h).symm

/-- C2: every `Song` list returned by `parse_config` is sorted by the key
pair `(album_number, track_number)`, ascending. -/
theorem C2_parse_config_sorted (w : World) (gd : String) (cat : List String)
    (lang : Option String) (songs : List Song)
    (h : (parse_config w gd cat lang).1 = Except.ok songs) :
    songs.Pairwise songKeyLE := by
  obtain ⟨T, pairs, raw, vals, _, _, rfl⟩ := parse_config_ok_inv w gd cat lang songs h
  exact (pairwise_pySorted raw).imp (fun hab => (songLE_iff _ _).mp hab)

/-- Witness for C2 at the happy-path environment. -/
theorem C2_parse_config_sorted_witness : [songA, songB].Pairwise songKeyLE :=
  C2_parse_config_sorted wOK "g" catOK none [songA, songB] parse_wOK_fst

/-!  ## Claim C4 — (non-)idempotence of the track normalizer -/

lemma pyReplaceFuel_no_occurrence (pat rep : List Char) :
    ∀ (fuel : Nat) (l : List Char), ¬ pat <:+: l → pyReplaceFuel pat rep fuel l = l := by
  intro fuel
  induction fuel with
  | zero => intro l _; rfl
  | succ n ih =>
    intro l hl
    cases l with
    | nil => rfl
    | cons c rest =>
      have hpre : ¬ (pat ≠ [] ∧ pat.isPrefixOf (c :: rest) = true) := by
        rintro ⟨_, hp⟩
        exact hl (List.isPrefixOf_iff_prefix.mp hp).isInfix
      simp only [pyReplaceFuel, if_neg hpre]
      rw [ih rest (fun hi => hl (List.infix_cons hi))]

/-- `s.replace(old, new)` is the identity when `old` does not occur in
`s`. -/
lemma pyReplace_self {s pat rep : String} (h : ¬ pat.data <:+: s.data) :
    pyReplace s pat rep = s := by
  unfold pyReplace
  rw [pyReplaceFuel_no_occurrence pat.data rep.data s.data.length s.data h]

lemma fixFm_ne_fm (s : Song) : (fixFm s).song_asset_name ≠ "fm_17314_sugar_radio" := by
  unfold fixFm
  split_ifs with h
  · simp
  · exact h

lemma fixMisty_asset (s : Song) :
    (fixMisty s).song_asset_name = s.song_asset_name ∨
      (fixMisty s).song_asset_name = "misty_memory_night_version" := by
  unfold fixMisty
  split_ifs <;> simp

lemma fixMisty_ne_day (s : Song) :
    (fixMisty s).song_asset_name ≠ "misty_memory_day_version" := by
  unfold fixMisty
  split_ifs with h
  · simp
  · exact h

/-- After one `fixSong` pass an asset name never equals the two
special-cased values again. -/
lemma fixSong_asset_ne (s : Song) :
    (fixSong s).song_asset_name ≠ "fm_17314_sugar_radio" ∧
      (fixSong s).song_asset_name ≠ "misty_memory_day_version" := by
  refine ⟨?_, fixMisty_ne_day _⟩
  unfold fixSong
  rcases fixMisty_asset (fixFm
    { s with
      album_name := pyReplace s.album_name "Everyting" "Everything",
      music_asset_name := pyReplace s.music_asset_name "_music" "",
      song_asset_name := pyReplace s.song_asset_name "_music" "" }) with h | h
  · rw [h]
    exact fixFm_ne_fm _
  · rw [h]
    decide

/-- `fixSong` is the identity on a song whose strings no longer contain
the rewritten fragments and whose asset key is none of the special-cased
values. -/
lemma fixSong_id (t : Song)
    (h1 : ¬ "Everyting".data <:+: t.album_name.data)
    (h2 : ¬ "_music".data <:+: t.music_asset_name.data)
    (h3 : ¬ "_music".data <:+: t.song_asset_name.data)
    (h4 : t.song_asset_name ≠ "fm_17314_sugar_radio")
    (h5 : t.song_asset_name ≠ "misty_memory_day_version") :
    fixSong t = t := by
  unfold fixSong fixFm fixMisty
  rw [pyReplace_self h1, pyReplace_self h2, pyReplace_self h3]
  cases t
  simp_all

/-- A track list after one normalizer pass (used to state C4). -/
lemma normSong_genre (s : Song) : (normSong s).genre = some "Video Games" := rfl

/-- C4 as stated is false: the normalizer (the composition of `fix_songs`
and `normalize_songs`) is not idempotent — a second application prepends
the product-name marker to every `album_name` again. -/
theorem C4_counterexample :
    normalize_songs (fix_songs (normalize_songs (fix_songs [songA]))) ≠
      normalize_songs (fix_songs [songA]) := by decide

/-- C4 amended: the second application of the normalizer changes nothing
except `album_name`, which receives one extra "Muse Dash - " marker —
provided the once-normalized tracks no longer contain the stripped
`_music` fragment in their asset keys nor the fixed `Everyting`
misspelling in their album names (true of all real game data).  In
particular the normalizer is not idempotent. -/
theorem C4_amended (songs : List Song)
    (h : ∀ s ∈ normalize_songs (fix_songs songs),
        ¬ "Everyting".data <:+: s.album_name.data ∧
        ¬ "_music".data <:+: s.music_asset_name.data ∧
        ¬ "_music".data <:+: s.song_asset_name.data) :
    normalize_songs (fix_songs (normalize_songs (fix_songs songs))) =
      (normalize_songs (fix_songs songs)).map
        (fun s => { s with album_name := "Muse Dash - " ++ s.album_name }) := by
  unfold normalize_songs fix_songs
  rw [List.map_map]
  apply List.map_congr_left
  intro s hs
  obtain ⟨y, hy, rfl⟩ := List.mem_map.mp hs
  obtain ⟨x, hx, rfl⟩ := List.mem_map.mp hy
  have hne := fixSong_asset_ne x
  have hh := h _ hs
  have hid : fixSong (normSong (fixSong x)) = normSong (fixSong x) := by
    apply fixSong_id
    · exact hh.1
    · exact hh.2.1
    · exact hh.2.2
    · exact hne.1
    · exact hne.2
  show normSong (fixSong (normSong (fixSong x))) = _
  rw [hid]
  rfl

/-- Witness for the amended C4 at a concrete one-song list. -/
theorem C4_amended_witness :
    normalize_songs (fix_songs (normalize_songs (fix_songs [songA]))) =
      (normalize_songs (fix_songs [songA])).map
        (fun s => { s with album_name := "Muse Dash - " ++ s.album_name }) :=
  C4_amended [songA] (by decide)

/-!  ## Inversion of the config-parsing loops (infrastructure for C3 and
C8) -/

/-- What a successful run of the track loop guarantees about its output:
one song per zipped pair; track numbers counting up from the start index;
`track_total` equal to the base list length passed in; both stored asset
names carrying their checked suffixes; and one shared album number parsed
from the album's `jsonName`. -/
lemma processTracks_ok_inv (album_entry : Record) (jsonName : String) (entryLen : Nat) :
    ∀ (pairs : List (Record × Record)) (i : Nat) (out : List Song),
      processTracks album_entry jsonName entryLen pairs i = Except.ok out →
      out.length = pairs.length ∧
      (∀ j (hj : j < out.length),
        (out.get ⟨j, hj⟩).track_number = i + j ∧
        (out.get ⟨j, hj⟩).track_total = entryLen ∧
        pyEndswith "_cover" (out.get ⟨j, hj⟩).cover_name = true ∧
        pyEndswith "_music" (out.get ⟨j, hj⟩).music_name = true) ∧
      (∀ s ∈ out, pyInt (pyLstrip albumChars jsonName) = Except.ok s.album_number) := by
  intro pairs
  induction pairs with
  | nil =>
    intro i out h
    simp only [processTracks] at h
    cases h
    refine ⟨rfl, ?_, ?_⟩
    · intro j hj
      exact absurd hj (by simp)
    · intro s hs
      exact absurd hs (by simp)
  | cons p rest ih =>
    rcases p with ⟨s, ls⟩
    intro i out h
    simp only [processTracks] at h
    split at h
    · exact absurd h (by simp)
    · rename_i cover hcover
      split at h
      · rename_i hsufc
        split at h
        · exact absurd h (by simp)
        · rename_i music hmusic
          split at h
          · rename_i hsufm
            split at h
            · exact absurd h (by simp)
            · rename_i title htitle
              split at h
              · exact absurd h (by simp)
              · rename_i artist hartist
                split at h
                · exact absurd h (by simp)
                · rename_i num hnum
                  split at h
                  · exact absurd h (by simp)
                  · rename_i album_name hname
                    split at h
                    · exact absurd h (by simp)
                    · rename_i restSongs hrest
                      cases h
                      obtain ⟨ihlen, ihidx, ihalb⟩ := ih (i + 1) restSongs hrest
                      refine ⟨by simp [ihlen], ?_, ?_⟩
                      · intro j hj
                        cases j with
                        | zero =>
                          exact ⟨by simp, by simp, by simpa using hsufc,
                            by simpa using hsufm⟩
                        | succ k =>
                          have hk : k < restSongs.length := by
                            simpa using hj
                          have h1 := ihidx k hk
                          refine ⟨?_, ?_, ?_, ?_⟩
                          · simp only [List.get_cons_succ]
                            rw [h1.1]
                            omega
                          · simpa only [List.get_cons_succ] using h1.2.1
                          · simpa only [List.get_cons_succ] using h1.2.2.1
                          · simpa only [List.get_cons_succ] using h1.2.2.2
                      · intro t ht
                        rcases List.mem_cons.mp ht with rfl | ht2
                        · simpa using hnum
                        · exact ihalb t ht2
          · exact absurd h (by simp)
      · exact absurd h (by simp)

/-- What a successful `processAlbum` guarantees: its output is a
successful track-loop run starting at index 1, whose pair list is capped
by the base list length, and exactly as long as the base list when no
language is selected. -/
lemma processAlbum_ok_inv (w : World) (gd : String) (cat : List String)
    (lsuf : Option String) (album_entry : Record) (jsonName : String) (out : List Song)
    (h : processAlbum w gd cat lsuf album_entry jsonName = Except.ok out) :
    ∃ (entryLen : Nat) (pairs : List (Record × Record)),
      processTracks album_entry jsonName entryLen pairs 1 = Except.ok out ∧
      pairs.length ≤ entryLen ∧
      (lsuf = none → pairs.length = entryLen) := by
  unfold processAlbum at h
  split at h
  · exact absurd h (by simp)
  · rename_i entry_path hpath
    split at h
    · exact absurd h (by simp)
    · rename_i entry_json hjson
      split at h
      · exact absurd h (by simp)
      · rename_i l_entry_json hl
        refine ⟨entry_json.length, entry_json.zip l_entry_json, h, ?_, ?_⟩
        · rw [List.length_zip]
          exact Nat.min_le_left ..
        · intro hnone
          subst hnone
          simp only [] at hl
          cases hl
          simp [List.length_zip]

/-- The group structure of the album loop's output: a concatenation of
per-album groups, each with one shared album number, a shared
`track_total`, suffix-checked asset names, track numbers starting at 1,
and — when no language is selected — as many songs as `track_total`. -/
inductive TrackGroups (lsuf : Option String) : List Song → Prop
  | nil : TrackGroups lsuf []
  | cons (g l : List Song) (L : Nat) (n : Int)
      (halb : ∀ s ∈ g, s.album_number = n)
      (htot : ∀ s ∈ g, s.track_total = L)
      (hsuf : ∀ s ∈ g, pyEndswith "_cover" s.cover_name = true ∧
        pyEndswith "_music" s.music_name = true)
      (hlen : lsuf = none → g.length = L)
      (hhead : ∀ hd, g.head? = some hd → hd.track_number = 1)
      (hrest : TrackGroups lsuf l) :
      TrackGroups lsuf (g ++ l)

/-- A successful `processTracks` run from index 1 yields a valid group. -/
lemma processTracks_group (album_entry : Record) (jsonName : String) (entryLen : Nat)
    (pairs : List (Record × Record)) (out : List Song)
    (h : processTracks album_entry jsonName entryLen pairs 1 = Except.ok out) :
    (∃ n : Int, ∀ s ∈ out, s.album_number = n) ∧
    (∀ s ∈ out, s.track_total = entryLen) ∧
    (∀ s ∈ out, pyEndswith "_cover" s.cover_name = true ∧
      pyEndswith "_music" s.music_name = true) ∧
    out.length = pairs.length ∧
    (∀ hd, out.head? = some hd → hd.track_number = 1) := by
  obtain ⟨hlen, hidx, halb⟩ := processTracks_ok_inv album_entry jsonName entryLen pairs 1 out h
  refine ⟨?_, ?_, ?_, hlen, ?_⟩
  · cases hpi : pyInt (pyLstrip albumChars jsonName) with
    | error e =>
      refine ⟨0, ?_⟩
      intro s hs
      have := halb s hs
      rw [hpi] at this
      exact absurd this (by simp)
    | ok n =>
      refine ⟨n, ?_⟩
      intro s hs
      have := halb s hs
      rw [hpi] at this
      exact ((Except.ok.injEq _ _).mp this).symm
  · intro s hs
    obtain ⟨⟨j, hj⟩, rfl⟩ := List.mem_iff_get.mp hs
    exact (hidx j hj).2.1
  · intro s hs
    obtain ⟨⟨j, hj⟩, rfl⟩ := List.mem_iff_get.mp hs
    exact ⟨(hidx j hj).2.2.1, (hidx j hj).2.2.2⟩
  · intro hd hhd
    cases out with
    | nil => exact absurd hhd (by simp)
    | cons a l =>
      have h0 := (hidx 0 (by simp)).1
      have : a = hd := by simpa using hhd
      subst this
      simpa using h0

/-- A successful album loop yields a `TrackGroups` decomposition. -/
lemma processAlbums_ok_groups (w : World) (gd : String) (cat : List String)
    (lsuf : Option String) (T : Nat) :
    ∀ (pairs : List (Record × Record)) (i : Nat) (raw : List Song) (vals : List ℚ),
      processAlbums w gd cat lsuf T pairs i = (Except.ok raw, vals) →
      TrackGroups lsuf raw := by
  intro pairs
  induction pairs with
  | nil =>
    intro i raw vals h
    simp only [processAlbums] at h
    cases h
    exact TrackGroups.nil
  | cons p rest ih =>
    rcases p with ⟨a, la⟩
    intro i raw vals h
    simp only [processAlbums] at h
    split at h
    · exact absurd h (by simp)
    · rename_i jsonName hjn
      split at h
      · exact ih _ _ _ h
      · split at h
        · exact absurd h (by simp)
        · rename_i albumSongs halbum
          split at h
          · exact absurd h (by simp)
          · rename_i restSongs restVals hrest
            cases h
            obtain ⟨entryLen, tpairs, htr, _, hfull⟩ :=
              processAlbum_ok_inv w gd cat lsuf _ jsonName albumSongs halbum
            obtain ⟨⟨n, halb⟩, htot, hsuf, hlen, hhead⟩ :=
              processTracks_group _ jsonName entryLen tpairs albumSongs htr
            exact TrackGroups.cons albumSongs restSongs entryLen n halb htot hsuf
              (fun hnone => by rw [hlen, hfull hnone]) hhead (ih _ _ _ hrest)

/-!  ## Claim C8 — malformed track records abort the run before any
extraction -/

lemma trackGroups_suffix {lsuf : Option String} {l : List Song} (h : TrackGroups lsuf l) :
    ∀ s ∈ l, pyEndswith "_cover" s.cover_name = true ∧
      pyEndswith "_music" s.music_name = true := by
  induction h with
  | nil => intro s hs; exact absurd hs (by simp)
  | cons g l L n halb htot hsuf hlen hhead hrest ih =>
    intro s hs
    rcases List.mem_append.mp hs with hg | hl
    · exact hsuf s hg
    · exact ih s hl

/-- World whose first track record has a `cover` field missing the
`_cover` suffix. -/
def wC8 : World where
  fsExists := fun _ => true
  loadJson := fun _ asset =>
    if asset = "albums" then
      Except.ok [mkRecord [("jsonName", "ALBUM1"), ("title", "Default Music")]]
    else if asset = "ALBUM1" then
      Except.ok
        [ mkRecord [("name", "Song A"), ("author", "Artist A"),
                    ("music", "a_music"), ("cover", "a_kover")] ]
    else Except.error (PyError.fileNotFound asset)
  internalIds := catOK.map (fun s => CATALOG_BUNDLE_MARKER ++ s)

/-- C8: (1) a successful parse only ever emits records whose raw
`cover` / `music` fields carried the expected suffixes — equivalently, a
processed record with a bad suffix makes the whole parse fail; (2) a
reached record whose merged `cover` field lacks `_cover` fails the track
loop with the assertion error, (3) likewise for a `music` field lacking
`_music`; and (4) when config parsing fails, `rip` propagates that error
with no extraction progress: no extraction unit is started. -/
theorem C8_malformed_aborts :
    (∀ (w : World) (gd : String) (cat : List String) (lang : Option String)
        (songs : List Song),
      (parse_config w gd cat lang).1 = Except.ok songs →
      ∀ s ∈ songs, pyEndswith "_cover" s.cover_name = true ∧
        pyEndswith "_music" s.music_name = true) ∧
    (∀ (album_entry : Record) (jn : String) (L : Nat) (s ls : Record)
        (rest : List (Record × Record)) (i : Nat) (c : String),
      updateRecord s ls "cover" = some c → pyEndswith "_cover" c = false →
      processTracks album_entry jn L ((s, ls) :: rest) i =
        Except.error PyError.assertionError) ∧
    (∀ (album_entry : Record) (jn : String) (L : Nat) (s ls : Record)
        (rest : List (Record × Record)) (i : Nat) (c m : String),
      updateRecord s ls "cover" = some c → pyEndswith "_cover" c = true →
      updateRecord s ls "music" = some m → pyEndswith "_music" m = false →
      processTracks album_entry jn L ((s, ls) :: rest) i =
        Except.error PyError.assertionError) ∧
    (∀ (w : World) (gd : String) (lang : Option String) (stopSet : Bool)
        (schedule : List (List FutureOutcome)) (e : PyError) (vals : List ℚ),
      parse_config w gd (load_catalog w.internalIds) lang = (Except.error e, vals) →
      w.fsExists (gd ++ "/MuseDash.exe") = true →
      rip w gd lang stopSet schedule =
        (Except.error e, 0 :: vals.map (fun x => x * CONFIG_PARSE_PROGRESS / 100))) := by
  refine ⟨?_, ?_, ?_, ?_⟩
  · intro w gd cat lang songs h s hs
    obtain ⟨T, pairs, raw, vals, _, hpa, rfl⟩ := parse_config_ok_inv w gd cat lang songs h
    have hg := processAlbums_ok_groups w gd cat (languagesGet lang) T pairs 1 raw vals hpa
    exact trackGroups_suffix hg s ((perm_pySorted raw).mem_iff.mp hs)
  · intro album_entry jn L s ls rest i c hc hbad
    simp [processTracks, getKey, hc, hbad]
  · intro album_entry jn L s ls rest i c m hc hgood hm hbad
    simp [processTracks, getKey, hc, hgood, hm, hbad]
  · intro w gd lang stopSet schedule e vals hparse hexe
    unfold rip
    rw [hexe, if_pos rfl, hparse]

/-- Witness for C8: the happy-path songs carry their suffixes; concrete
bad `cover` and bad `music` records fail the track loop; and the world
`wC8` whose only track record has a malformed `cover` makes `rip` abort
with the assertion error before emitting any extraction progress. -/
theorem C8_malformed_aborts_witness :
    (pyEndswith "_cover" songA.cover_name = true ∧
      pyEndswith "_music" songA.music_name = true) ∧
    processTracks emptyRecord "ALBUM1" 1 [(mkRecord [("cover", "bad")], emptyRecord)] 1 =
      Except.error PyError.assertionError ∧
    processTracks emptyRecord "ALBUM1" 1
        [(mkRecord [("cover", "a_cover"), ("music", "bad")], emptyRecord)] 1 =
      Except.error PyError.assertionError ∧
    rip wC8 "g" none false [] =
      (Except.error PyError.assertionError,
        0 :: ([] : List ℚ).map (fun x => x * CONFIG_PARSE_PROGRESS / 100)) :=
  ⟨C8_malformed_aborts.1 wOK "g" catOK none [songA, songB] parse_wOK_fst songA (by decide),
   C8_malformed_aborts.2.1 emptyRecord "ALBUM1" 1 _ _ [] 1 "bad" (by decide) (by decide),
   C8_malformed_aborts.2.2.1 emptyRecord "ALBUM1" 1 _ _ [] 1 "a_cover" "bad"
     (by decide) (by decide) (by decide) (by decide),
   C8_malformed_aborts.2.2.2 wC8 "g" none false [] PyError.assertionError []
     (by decide) (by decide)⟩

/-!  ## Claim C3 — `track_total` versus the emitted track count -/

/-- Every track of a grouped list shares its album number with some track
numbered 1 in the same list. -/
lemma trackGroups_first {lsuf : Option String} {l : List Song} (h : TrackGroups lsuf l) :
    ∀ t ∈ l, ∃ t1 ∈ l, t1.album_number = t.album_number ∧ t1.track_number = 1 := by
  induction h with
  | nil => intro t ht; exact absurd ht (by simp)
  | cons g l L n halb htot hsuf hlen hhead hrest ih =>
    intro t ht
    rcases List.mem_append.mp ht with hg | hl
    · cases g with
      | nil => exact absurd hg (by simp)
      | cons a g2 =>
        refine ⟨a, List.mem_append_left _ (by simp), ?_, hhead a rfl⟩
        rw [halb a (by simp), halb t hg]
    · obtain ⟨t1, ht1, he⟩ := ih t hl
      exact ⟨t1, List.mem_append_right _ ht1, he⟩

/-- Counting argument: in a language-none grouped list with no duplicate
`(album_number, track_number)` pair, the number of tracks sharing a
track's album number equals its `track_total`. -/
lemma trackGroups_count {l : List Song} (h : TrackGroups none l) :
    (l.map (fun s => (s.album_number, s.track_number))).Nodup →
    ∀ s ∈ l, l.countP (fun t => decide (t.album_number = s.album_number)) = s.track_total := by
  induction h with
  | nil => intro _ s hs; exact absurd hs (by simp)
  | cons g l L n halb htot hsuf hlen hhead hrest ih =>
    intro hnd s hs
    rw [List.map_append] at hnd
    obtain ⟨ndg, ndl, disj⟩ := List.nodup_append.mp hnd
    rw [List.countP_append]
    rcases List.mem_append.mp hs with hg | hl
    · have hsn : s.album_number = n := halb s hg
      have hg_count :
          g.countP (fun t => decide (t.album_number = s.album_number)) = g.length := by
        rw [List.countP_eq_length]
        intro t htg
        simp [halb t htg, hsn]
      have hl_count :
          l.countP (fun t => decide (t.album_number = s.album_number)) = 0 := by
        rw [List.countP_eq_zero]
        intro t htl hpt
        have htn : t.album_number = n := by
          have h1 : t.album_number = s.album_number := by simpa using hpt
          rw [h1, hsn]
        obtain ⟨t1, ht1, ht1a, ht1t⟩ := trackGroups_first hrest t htl
        have hmem_l : (n, 1) ∈ l.map (fun s => (s.album_number, s.track_number)) :=
          List.mem_map.mpr ⟨t1, ht1, by rw [ht1a, htn, ht1t]⟩
        cases g with
        | nil => exact absurd hg (by simp)
        | cons a g2 =>
          have hmem_g : (n, 1) ∈
              (a :: g2).map (fun s => (s.album_number, s.track_number)) :=
            List.mem_map.mpr ⟨a, by simp, by rw [halb a (by simp), hhead a rfl]⟩
          exact (List.disjoint_left.mp disj) hmem_g hmem_l
      rw [hg_count, hl_count, htot s hg, hlen rfl]
      omega
    · have hg_count :
          g.countP (fun t => decide (t.album_number = s.album_number)) = 0 := by
        rw [List.countP_eq_zero]
        intro t htg hpt
        have htn : s.album_number = n := by
          have h1 : t.album_number = s.album_number := by simpa using hpt
          rw [← h1, halb t htg]
        obtain ⟨t1, ht1, ht1a, ht1t⟩ := trackGroups_first hrest s hl
        have hmem_l : (n, 1) ∈ l.map (fun s => (s.album_number, s.track_number)) :=
          List.mem_map.mpr ⟨t1, ht1, by rw [ht1a, htn, ht1t]⟩
        have hmem_g : (n, 1) ∈
            g.map (fun s => (s.album_number, s.track_number)) := by
          cases g with
          | nil => exact absurd htg (by simp)
          | cons a g2 =>
            exact List.mem_map.mpr ⟨a, by simp, by rw [halb a (by simp), hhead a rfl]⟩
        exact (List.disjoint_left.mp disj) hmem_g hmem_l
      rw [hg_count, ih ndl s hl]
      omega

/-- C3 as stated is false: in the localized truncation scenario the
single emitted track has `track_total = 2` (the base list length) while
only one track of its album is in the list. -/
theorem C3_counterexample :
    (parse_config wC3 "g" catC3 (some "English")).1 = Except.ok [songC3] ∧
    songC3.track_total = 2 ∧
    [songC3].countP (fun t => decide (t.album_number = songC3.album_number)) = 1 :=
  ⟨parse_wC3_fst, by decide, by decide⟩

/-- C3 amended: `track_total` always records the BASE per-album list
length.  When no language is selected (so zip-style pairing drops
nothing) and the emitted `(album_number, track_number)` pairs are
pairwise distinct, `track_total` does equal the number of tracks sharing
the album number; when a localized per-album list is shorter than the
base list, the dropped base entries make `track_total` exceed that
count. -/
theorem C3_amended (w : World) (gd : String) (cat : List String) (songs : List Song)
    (hok : (parse_config w gd cat none).1 = Except.ok songs)
    (hnd : (songs.map (fun s => (s.album_number, s.track_number))).Nodup) :
    ∀ s ∈ songs,
      songs.countP (fun t => decide (t.album_number = s.album_number)) = s.track_total := by
  obtain ⟨T, pairs, raw, vals, _, hpa, rfl⟩ := parse_config_ok_inv w gd cat none songs hok
  have hg := processAlbums_ok_groups w gd cat (languagesGet none) T pairs 1 raw vals hpa
  have hnone : languagesGet none = (none : Option String) := rfl
  rw [hnone] at hg
  have hperm := perm_pySorted raw
  have hndraw : (raw.map (fun s => (s.album_number, s.track_number))).Nodup :=
    hnd.perm (hperm.map _)
  intro s hs
  rw [hperm.countP_eq]
  exact trackGroups_count hg hndraw s (hperm.mem_iff.mp hs)

/-- Witness for the amended C3 at the happy-path environment. -/
theorem C3_amended_witness :
    [songA, songB].countP (fun t => decide (t.album_number = songA.album_number)) =
      songA.track_total :=
  C3_amended wOK "g" catOK [songA, songB] parse_wOK_fst (by decide) songA (by decide)

/-!  ## Claim C6 — pure cancellation yields a non-error incomplete result -/

lemma foldl_peStep_bool (l : List FutureOutcome) :
    ∀ acc, (l.foldl peStep acc).2.1 =
      (acc.2.1 && l.all (fun o => decide (o ≠ FutureOutcome.cancelled))) := by
  induction l with
  | nil => intro acc; simp
  | cons o rest ih =>
    intro acc
    cases o <;> simp [peStep, ih, Bool.and_assoc]

lemma foldl_peStep_msgs (l : List FutureOutcome) :
    ∀ acc, (l.foldl peStep acc).2.2 =
      acc.2.2 ++ l.filterMap FutureOutcome.successMsg := by
  induction l with
  | nil => intro acc; simp
  | cons o rest ih =>
    intro acc
    cases o <;> simp [peStep, ih, FutureOutcome.successMsg]

/-- Full characterization of `parallel_execute`: it raises the
last-observed failure if any; otherwise it returns whether no unit was
cancelled; and `done_callback` is invoked exactly once per successful
unit, in observation order — cancelled units never trigger it. -/
lemma parallel_execute_eq (schedule : List (List FutureOutcome)) :
    parallel_execute schedule =
      ((match lastFailure schedule.flatten with
        | some e => Except.error e
        | none =>
          Except.ok (schedule.flatten.all (fun o => decide (o ≠ FutureOutcome.cancelled)))),
       schedule.flatten.filterMap FutureOutcome.successMsg) := by
  unfold parallel_execute
  rw [show (schedule.foldl (fun acc batch => batch.foldl peStep acc) (none, true, [])) =
      schedule.flatten.foldl peStep (none, true, []) from (List.foldl_flatten _ _ _).symm]
  have h1 : (schedule.flatten.foldl peStep (none, true, [])).1 = lastFailure schedule.flatten :=
    foldl_peStep_err _ _
  have h2 : (schedule.flatten.foldl peStep (none, true, [])).2.1 =
      schedule.flatten.all (fun o => decide (o ≠ FutureOutcome.cancelled)) := by
    rw [foldl_peStep_bool]
    simp
  have h3 : (schedule.flatten.foldl peStep (none, true, [])).2.2 =
      schedule.flatten.filterMap FutureOutcome.successMsg := by
    rw [foldl_peStep_msgs]
    simp
  rcases hst : schedule.flatten.foldl peStep (none, true, []) with ⟨err, ad, msgs⟩
  rw [hst] at h1 h2 h3
  rw [← h1, ← h2, ← h3]
  cases err <;> rfl

lemma lastFailure_eq_none (l : List FutureOutcome)
    (h : ∀ o ∈ l, o.isFailure = false) : lastFailure l = none := by
  induction l with
  | nil => rfl
  | cons o rest ih =>
    have ho := h o (by simp)
    have hrest : ∀ o2 ∈ rest, o2.isFailure = false := fun o2 ho2 => h o2 (by simp [ho2])
    cases o with
    | failure e => exact absurd ho (by simp [FutureOutcome.isFailure])
    | success m => simpa [lastFailure] using ih hrest
    | cancelled => simpa [lastFailure] using ih hrest

/-- C6: a run whose extraction observes no failure but at least one
cancelled unit ends with the non-error "incomplete" result
(`rip` returns `False`, no exception), and `done_callback` fires only for
successful units, so a unit cancelled before starting never contributes a
completion. -/
theorem C6_cancellation (w : World) (gd : String) (lang : Option String)
    (schedule : List (List FutureOutcome)) (songs : List Song)
    (hexe : w.fsExists (gd ++ "/MuseDash.exe") = true)
    (hok : (parse_config w gd (load_catalog w.internalIds) lang).1 = Except.ok songs)
    (hnofail : ∀ o ∈ schedule.flatten, o.isFailure = false)
    (hcancel : FutureOutcome.cancelled ∈ schedule.flatten) :
    (rip w gd lang false schedule).1 = Except.ok false ∧
    (parallel_execute schedule).2 = schedule.flatten.filterMap FutureOutcome.successMsg := by
  have hchar := parallel_execute_eq schedule
  have hlast := lastFailure_eq_none schedule.flatten hnofail
  have hall : schedule.flatten.all (fun o => decide (o ≠ FutureOutcome.cancelled)) = false := by
    rw [List.all_eq_false]
    exact ⟨FutureOutcome.cancelled, hcancel, by simp⟩
  have hpe : parallel_execute schedule =
      (Except.ok false, schedule.flatten.filterMap FutureOutcome.successMsg) := by
    rw [hchar, hlast, hall]
  refine ⟨?_, by rw [hpe]⟩
  unfold rip
  rw [hexe, if_pos rfl]
  rcases hp : parse_config w gd (load_catalog w.internalIds) lang with ⟨res, vals⟩
  rw [hp] at hok
  cases res with
  | error e => exact absurd hok (by simp)
  | ok songs0 => simp [hpe]

/-- Witness for C6: two-track happy path, first unit succeeds, second is
cancelled before starting. -/
theorem C6_cancellation_witness :
    (rip wOK "g" none false [[FutureOutcome.success "Exported song: Song A by Artist A"],
        [FutureOutcome.cancelled]]).1 = Except.ok false ∧
    (parallel_execute [[FutureOutcome.success "Exported song: Song A by Artist A"],
        [FutureOutcome.cancelled]]).2 =
      ([[FutureOutcome.success "Exported song: Song A by Artist A"],
        [FutureOutcome.cancelled]] :
          List (List FutureOutcome)).flatten.filterMap FutureOutcome.successMsg :=
  C6_cancellation wOK "g" none _ [songA, songB] (by decide) parse_wOK_fst
    (by decide) (by decide)

/-!  ## Claim C7 — monotone bounded progress reporting -/

lemma val_mono {i j : ℚ} (T : ℚ) (hij : i ≤ j) (hi : 0 ≤ i) (hT : 0 ≤ T) :
    i / T * 100 ≤ j / T * 100 := by
  rcases eq_or_lt_of_le hT with h | h
  · rw [← h]
    simp
  · gcongr

lemma val_le_100 {i T : ℚ} (hi : i ≤ T) (h0 : 0 < T) : i / T * 100 ≤ 100 := by
  have h1 : i / T ≤ 1 := (div_le_one h0).mpr hi
  calc i / T * 100 ≤ 1 * 100 := by
        exact mul_le_mul_of_nonneg_right h1 (by norm_num)
    _ = 100 := by norm_num

/-- Invariant of the album loop's progress emissions: starting the
enumeration at `i ≥ 1` with at most `T + 1 - i` albums left, the emitted
values are non-decreasing and lie between `i / T * 100` and `100`. -/
lemma processAlbums_vals (w : World) (gd : String) (cat : List String)
    (lsuf : Option String) (T : Nat) :
    ∀ (pairs : List (Record × Record)) (i : Nat), 1 ≤ i → i + pairs.length ≤ T + 1 →
      List.Chain' (· ≤ ·) (processAlbums w gd cat lsuf T pairs i).2 ∧
      (∀ v ∈ (processAlbums w gd cat lsuf T pairs i).2,
        (i : ℚ) / (T : ℚ) * 100 ≤ v ∧ v ≤ 100) := by
  intro pairs
  induction pairs with
  | nil =>
    intro i h1 h2
    constructor
    · simp [processAlbums]
    · intro v hv
      simp [processAlbums] at hv
  | cons p rest ih =>
    rcases p with ⟨a, la⟩
    intro i h1 h2
    simp only [List.length_cons] at h2
    simp only [processAlbums]
    split
    · exact ⟨by simp, by intro v hv; simp at hv⟩
    · rename_i jsonName hjn
      split
      · have hrec := ih (i + 1) (by omega) (by omega)
        refine ⟨hrec.1, ?_⟩
        intro v hv
        have hb := hrec.2 v hv
        refine ⟨le_trans ?_ hb.1, hb.2⟩
        apply val_mono
        · exact_mod_cast Nat.le_succ i
        · positivity
        · positivity
      · split
        · exact ⟨by simp, by intro v hv; simp at hv⟩
        · rename_i albumSongs halbum
          have hrec := ih (i + 1) (by omega) (by omega)
          rcases hr : processAlbums w gd cat lsuf T rest (i + 1) with ⟨res2, restVals⟩
          rw [hr] at hrec
          have hT : (0 : ℚ) < (T : ℚ) := by
            have hT1 : 1 ≤ T := by omega
            exact_mod_cast Nat.lt_of_lt_of_le Nat.zero_lt_one hT1
          have hiT : (i : ℚ) ≤ (T : ℚ) := by
            have : i ≤ T := by omega
            exact_mod_cast this
          have hhead : ∀ y ∈ restVals, (i : ℚ) / (T : ℚ) * 100 ≤ y := by
            intro y hy
            refine le_trans ?_ (hrec.2 y hy).1
            apply val_mono
            · exact_mod_cast Nat.le_succ i
            · positivity
            · positivity
          have hchain : List.Chain' (· ≤ ·) ((i : ℚ) / (T : ℚ) * 100 :: restVals) := by
            rw [List.chain'_cons']
            exact ⟨fun y hy => hhead y (List.mem_of_mem_head? hy), hrec.1⟩
          have hmem : ∀ v ∈ (i : ℚ) / (T : ℚ) * 100 :: restVals,
              (i : ℚ) / (T : ℚ) * 100 ≤ v ∧ v ≤ 100 := by
            intro v hv
            rcases List.mem_cons.mp hv with rfl | hv2
            · exact ⟨le_refl _, val_le_100 hiT hT⟩
            · exact ⟨hhead v hv2, (hrec.2 v hv2).2⟩
          cases res2 with
          | error e => exact ⟨hchain, hmem⟩
          | ok restSongs => exact ⟨hchain, hmem⟩

/-- The progress values emitted by `parse_config` are non-decreasing and
lie within `[0, 100]`. -/
lemma parse_config_vals (w : World) (gd : String) (cat : List String)
    (lang : Option String) :
    List.Chain' (· ≤ ·) (parse_config w gd cat lang).2 ∧
    ∀ v ∈ (parse_config w gd cat lang).2, 0 ≤ v ∧ v ≤ 100 := by
  unfold parse_config
  split
  · exact ⟨by simp, by intro v hv; simp at hv⟩
  · split
    · exact ⟨by simp, by intro v hv; simp at hv⟩
    · rename_i albums_json hjson
      split
      · exact ⟨by simp, by intro v hv; simp at hv⟩
      · rename_i l_albums hl
        have hlen : (albums_json.zip l_albums).length ≤ albums_json.length := by
          rw [List.length_zip]
          exact Nat.min_le_left ..
        have h := processAlbums_vals w gd cat (languagesGet lang) albums_json.length
          (albums_json.zip l_albums) 1 (le_refl 1) (by omega)
        split
        · rename_i e vals hpa
          rw [hpa] at h
          refine ⟨h.1, ?_⟩
          intro v hv
          have hb := h.2 v hv
          refine ⟨le_trans ?_ hb.1, hb.2⟩
          positivity
        · rename_i songs vals hpa
          rw [hpa] at h
          refine ⟨h.1, ?_⟩
          intro v hv
          have hb := h.2 v hv
          refine ⟨le_trans ?_ hb.1, hb.2⟩
          positivity

lemma ripExtValue_mono (S : Nat) {k k2 : Nat} (h : k ≤ k2) :
    ripExtValue S k ≤ ripExtValue S k2 := by
  simp only [ripExtValue, CONFIG_PARSE_PROGRESS]
  rcases Nat.eq_zero_or_pos S with rfl | hS
  · simp
  · have hS2 : (0 : ℚ) < (S : ℚ) := by exact_mod_cast hS
    have hk : (k : ℚ) ≤ (k2 : ℚ) := by exact_mod_cast h
    gcongr

lemma ripExtValue_ge (S k : Nat) : CONFIG_PARSE_PROGRESS ≤ ripExtValue S k := by
  simp only [ripExtValue, CONFIG_PARSE_PROGRESS]
  have h : 0 ≤ (100 - (10 : ℚ)) * ((k : ℚ) + 1) / (S : ℚ) := by positivity
  linarith

lemma ripExtValue_le_100 (S k : Nat) (h : k + 1 ≤ S) : ripExtValue S k ≤ 100 := by
  have hS : (0 : ℚ) < (S : ℚ) := by exact_mod_cast (by omega : 0 < S)
  simp only [ripExtValue, CONFIG_PARSE_PROGRESS]
  rw [mul_div_assoc]
  have h1 : ((k : ℚ) + 1) / (S : ℚ) ≤ 1 := by
    rw [div_le_one hS]
    exact_mod_cast h
  have h2 := mul_le_mul_of_nonneg_left h1 (by norm_num : (0 : ℚ) ≤ 100 - 10)
  linarith

lemma ripExtValue_eq_100 (S k : Nat) (h : ripExtValue S k = 100) : k + 1 = S := by
  by_cases hS : S = 0
  · subst hS
    simp only [ripExtValue, CONFIG_PARSE_PROGRESS] at h
    norm_num at h
  · have hS2 : (0 : ℚ) < (S : ℚ) := by
      exact_mod_cast Nat.pos_of_ne_zero hS
    simp only [ripExtValue, CONFIG_PARSE_PROGRESS] at h
    have h2 : (100 - (10 : ℚ)) * ((k : ℚ) + 1) / (S : ℚ) = 90 := by linarith
    rw [div_eq_iff (ne_of_gt hS2)] at h2
    have hq : (k : ℚ) + 1 = (S : ℚ) := by linarith
    exact_mod_cast hq

lemma scale_mono {a b : ℚ} (h : a ≤ b) :
    a * CONFIG_PARSE_PROGRESS / 100 ≤ b * CONFIG_PARSE_PROGRESS / 100 := by
  simp only [CONFIG_PARSE_PROGRESS]
  gcongr

lemma scale_bounds {v : ℚ} (h0 : 0 ≤ v) (h100 : v ≤ 100) :
    0 ≤ v * CONFIG_PARSE_PROGRESS / 100 ∧
      v * CONFIG_PARSE_PROGRESS / 100 ≤ CONFIG_PARSE_PROGRESS := by
  simp only [CONFIG_PARSE_PROGRESS]
  constructor
  · positivity
  · rw [div_le_iff (by norm_num : (0 : ℚ) < 100)]
    nlinarith

lemma ext_trace_chain (S m : Nat) :
    List.Chain' (· ≤ ·) ((List.range m).map (ripExtValue S)) := by
  rw [List.chain'_map]
  apply List.Pairwise.chain'
  exact (List.pairwise_lt_range m).imp (fun hlt => ripExtValue_mono S (le_of_lt hlt))

lemma filterMap_success_full (l : List FutureOutcome) :
    (l.filterMap FutureOutcome.successMsg).length = l.length →
    ∀ o ∈ l, ∃ msg, o = FutureOutcome.success msg := by
  induction l with
  | nil => intro _ o ho; exact absurd ho (by simp)
  | cons o rest ih =>
    intro h o2 ho2
    cases o with
    | success msg =>
      rcases List.mem_cons.mp ho2 with rfl | h2
      · exact ⟨msg, rfl⟩
      · refine ih ?_ o2 h2
        simpa [FutureOutcome.successMsg] using h
    | failure e =>
      exfalso
      have hle := List.length_filterMap_le FutureOutcome.successMsg rest
      simp [FutureOutcome.successMsg] at h
      omega
    | cancelled =>
      exfalso
      have hle := List.length_filterMap_le FutureOutcome.successMsg rest
      simp [FutureOutcome.successMsg] at h
      omega

/-- The shape of a full `rip` progress trace: `0`, the scaled config
values, then one `log_exported` value per completed unit.  Non-decreasing,
within `[0, 100]`, and hitting `100` only when every submitted unit has
completed (`m = S > 0`). -/
lemma rip_trace_props (vals : List ℚ) (S m : Nat)
    (hc : List.Chain' (· ≤ ·) vals) (hb : ∀ v ∈ vals, 0 ≤ v ∧ v ≤ 100)
    (hm : m ≤ S) :
    List.Chain' (· ≤ ·)
      (0 :: (vals.map (fun x => x * CONFIG_PARSE_PROGRESS / 100) ++
        (List.range m).map (ripExtValue S))) ∧
    (∀ v ∈ 0 :: (vals.map (fun x => x * CONFIG_PARSE_PROGRESS / 100) ++
        (List.range m).map (ripExtValue S)), 0 ≤ v ∧ v ≤ 100) ∧
    (∀ v ∈ 0 :: (vals.map (fun x => x * CONFIG_PARSE_PROGRESS / 100) ++
        (List.range m).map (ripExtValue S)), v = 100 → m = S ∧ 0 < S) := by
  have hcfg_mem : ∀ v ∈ vals.map (fun x => x * CONFIG_PARSE_PROGRESS / 100),
      0 ≤ v ∧ v ≤ CONFIG_PARSE_PROGRESS := by
    intro v hv
    obtain ⟨x, hx, rfl⟩ := List.mem_map.mp hv
    exact scale_bounds (hb x hx).1 (hb x hx).2
  have hext_mem : ∀ v ∈ (List.range m).map (ripExtValue S),
      CONFIG_PARSE_PROGRESS ≤ v ∧ v ≤ 100 := by
    intro v hv
    obtain ⟨k, hk, rfl⟩ := List.mem_map.mp hv
    have hkm : k < m := List.mem_range.mp hk
    exact ⟨ripExtValue_ge S k, ripExtValue_le_100 S k (by omega)⟩
  refine ⟨?_, ?_, ?_⟩
  · rw [List.chain'_cons']
    constructor
    · intro y hy
      have hymem := List.mem_of_mem_head? hy
      rcases List.mem_append.mp hymem with h1 | h2
      · exact (hcfg_mem y h1).1
      · exact le_trans (by norm_num [CONFIG_PARSE_PROGRESS]) (hext_mem y h2).1
    · rw [List.chain'_append]
      refine ⟨?_, ext_trace_chain S m, ?_⟩
      · rw [List.chain'_map]
        exact hc.imp (fun a b h => scale_mono h)
      · intro x hx y hy
        have hxm := List.mem_of_mem_getLast? hx
        have hym := List.mem_of_mem_head? hy
        exact le_trans (hcfg_mem x hxm).2 (hext_mem y hym).1
  · intro v hv
    rcases List.mem_cons.mp hv with rfl | hv2
    · exact ⟨le_refl 0, by norm_num⟩
    · rcases List.mem_append.mp hv2 with h1 | h2
      · have := hcfg_mem v h1
        exact ⟨this.1, le_trans this.2 (by norm_num [CONFIG_PARSE_PROGRESS])⟩
      · have := hext_mem v h2
        exact ⟨le_trans (by norm_num [CONFIG_PARSE_PROGRESS]) this.1, this.2⟩
  · intro v hv h100
    rcases List.mem_cons.mp hv with rfl | hv2
    · norm_num at h100
    · rcases List.mem_append.mp hv2 with h1 | h2
      · have := (hcfg_mem v h1).2
        rw [h100] at this
        norm_num [CONFIG_PARSE_PROGRESS] at this
      · obtain ⟨k, hk, rfl⟩ := List.mem_map.mp h2
        have hkm : k < m := List.mem_range.mp hk
        have hkS := ripExtValue_eq_100 S k h100
        exact ⟨by omega, by omega⟩

/-- C7: across a whole run of `rip` (with a well-formed completion
schedule: one observed outcome per submitted unit), the sequence of
values passed to the progress callback is non-decreasing, stays within
`[0, 100]` (the scaled config-parsing values never exceed the fixed
`CONFIG_PARSE_PROGRESS` floor, where extraction values start), and a
value of exactly 100 occurs only when every submitted extraction unit has
completed successfully — in particular only after every non-cancelled
unit has completed. -/
theorem C7_progress (w : World) (gd : String) (lang : Option String) (stopSet : Bool)
    (schedule : List (List FutureOutcome))
    (hwf : ∀ songs,
      (parse_config w gd (load_catalog w.internalIds) lang).1 = Except.ok songs →
      schedule.flatten.length = songs.length) :
    List.Chain' (· ≤ ·) (rip w gd lang stopSet schedule).2 ∧
    (∀ v ∈ (rip w gd lang stopSet schedule).2, 0 ≤ v ∧ v ≤ 100) ∧
    (∀ v ∈ (rip w gd lang stopSet schedule).2, v = 100 →
      ∀ o ∈ schedule.flatten, ∃ msg, o = FutureOutcome.success msg) := by
  unfold rip
  by_cases hexe : w.fsExists (gd ++ "/MuseDash.exe") = true
  case neg =>
    rw [if_neg hexe]
    refine ⟨by simp, ?_, ?_⟩
    · intro v hv
      simp only [List.mem_singleton] at hv
      rw [hv]
      norm_num
    · intro v hv h100
      simp only [List.mem_singleton] at hv
      rw [hv] at h100
      norm_num at h100
  case pos =>
    rw [if_pos hexe]
    have hpv := parse_config_vals w gd (load_catalog w.internalIds) lang
    rcases hp : parse_config w gd (load_catalog w.internalIds) lang with ⟨res, vals⟩
    rw [hp] at hpv
    cases res with
    | error e =>
      have h := rip_trace_props vals 0 0 hpv.1 hpv.2 (le_refl 0)
      simp only [List.range_zero, List.map_nil, List.append_nil] at h
      refine ⟨h.1, h.2.1, ?_⟩
      intro v hv h100
      exact absurd (h.2.2 v hv h100).2 (by omega)
    | ok songs0 =>
      cases stopSet with
      | true =>
        have h := rip_trace_props vals 0 0 hpv.1 hpv.2 (le_refl 0)
        simp only [List.range_zero, List.map_nil, List.append_nil] at h
        refine ⟨h.1, h.2.1, ?_⟩
        intro v hv h100
        exact absurd (h.2.2 v hv h100).2 (by omega)
      | false =>
        have hok : (parse_config w gd (load_catalog w.internalIds) lang).1 =
            Except.ok songs0 := by rw [hp]
        have hS := hwf songs0 hok
        have hmsg : (parallel_execute schedule).2 =
            schedule.flatten.filterMap FutureOutcome.successMsg := by
          rw [parallel_execute_eq]
        have hSlen : (normalize_songs (fix_songs songs0)).length = songs0.length := by
          simp [normalize_songs, fix_songs]
        have hm_le : (parallel_execute schedule).2.length ≤
            (normalize_songs (fix_songs songs0)).length := by
          rw [hmsg, hSlen, ← hS]
          exact List.length_filterMap_le _ _
        have h := rip_trace_props vals (normalize_songs (fix_songs songs0)).length
          (parallel_execute schedule).2.length hpv.1 hpv.2 hm_le
        refine ⟨h.1, h.2.1, ?_⟩
        intro v hv h100
        have h2 := h.2.2 v hv h100
        apply filterMap_success_full
        rw [← hmsg, h2.1, hSlen, hS]

/-- Witness for C7 at the happy-path run with both units succeeding. -/
theorem C7_progress_witness :
    List.Chain' (· ≤ ·)
      (rip wOK "g" none false
        [[FutureOutcome.success "x", FutureOutcome.success "y"]]).2 ∧
    (∀ v ∈ (rip wOK "g" none false
        [[FutureOutcome.success "x", FutureOutcome.success "y"]]).2,
      0 ≤ v ∧ v ≤ 100) ∧
    (∀ v ∈ (rip wOK "g" none false
        [[FutureOutcome.success "x", FutureOutcome.success "y"]]).2, v = 100 →
      ∀ o ∈ ([[FutureOutcome.success "x", FutureOutcome.success "y"]] :
          List (List FutureOutcome)).flatten,
        ∃ msg, o = FutureOutcome.success msg) := by
  apply C7_progress
  intro songs h
  rw [show load_catalog wOK.internalIds = catOK from by decide] at h
  rw [parse_wOK_fst] at h
  injection h with h2
  rw [← h2]
  decide

end MuseDash
